import Mathlib

/-!
Verification of the SpyNet session/endpoint/connection core.

The TypeScript sources are embedded shallowly:
* a JavaScript `Map<string, V>` becomes an association list `List (String × V)`
  with JS `Map` semantics (`set` replaces in place keeping position, else
  appends; `get` finds the first matching key; `delete` removes the entry);
* class methods that mutate an object become functions returning the updated
  state;
* `Date` timestamps and JS numbers used for times are `Int` (milliseconds);
* `any`-typed payload values are a type parameter `Val`.
-/

set_option autoImplicit false

namespace SpyNet

/-! ## JS `Map` model -/

section MapModel

variable {β : Type}

/-- `Map.get(k)`: first entry whose key equals `k`. -/
def mapGet (m : List (String × β)) (k : String) : Option β :=
  (m.find? fun e => e.1 == k).map fun e => e.2

/-- `Map.set(k, v)`: replace the entry for `k` in place, else append. -/
def mapSet (m : List (String × β)) (k : String) (v : β) : List (String × β) :=
  if m.any fun e => e.1 == k then
    m.map fun e => if e.1 == k then (k, v) else e
  else
    m ++ [(k, v)]

/-- `Map.delete(k)`: remove the entry for `k`. -/
def mapDelete (m : List (String × β)) (k : String) : List (String × β) :=
  m.filter fun e => !(e.1 == k)

theorem find?_replace_self (m : List (String × β)) (k : String) (v : β)
    (h : (m.any fun e => e.1 == k) = true) :
    (m.map fun e => if e.1 == k then (k, v) else e).find? (fun e => e.1 == k)
      = some (k, v) := by
  induction m with
  | nil => simp at h
  | cons e t ih =>
    by_cases he : e.1 = k
    · rw [List.map_cons, if_pos (by simp [he])]
      exact List.find?_cons_of_pos _ (by simp)
    · rw [List.map_cons, if_neg (by simp [he])]
      rw [List.find?_cons_of_neg _ (by simp [he])]
      exact ih (by simpa [List.any_cons, he] using h)

theorem find?_replace_other (m : List (String × β)) (k k' : String) (v : β)
    (hne : k' ≠ k) :
    (m.map fun e => if e.1 == k then (k, v) else e).find? (fun e => e.1 == k')
      = m.find? (fun e => e.1 == k') := by
  induction m with
  | nil => rfl
  | cons e t ih =>
    by_cases he : e.1 = k
    · rw [List.map_cons, if_pos (by simp [he])]
      rw [List.find?_cons_of_neg _ (by simp [Ne.symm hne])]
      rw [List.find?_cons_of_neg _ (by simp [he, Ne.symm hne])]
      exact ih
    · rw [List.map_cons, if_neg (by simp [he])]
      by_cases he2 : e.1 = k'
      · rw [List.find?_cons_of_pos _ (by simp [he2]),
          List.find?_cons_of_pos _ (by simp [he2])]
      · rw [List.find?_cons_of_neg _ (by simp [he2]),
          List.find?_cons_of_neg _ (by simp [he2])]
        exact ih

theorem find?_of_not_any (m : List (String × β)) (k : String)
    (h : ¬ (m.any fun e => e.1 == k) = true) :
    m.find? (fun e => e.1 == k) = none := by
  rw [List.find?_eq_none]
  intro e he hbe
  exact h (List.any_eq_true.mpr ⟨e, he, hbe⟩)

theorem mapGet_set_self (m : List (String × β)) (k : String) (v : β) :
    mapGet (mapSet m k v) k = some v := by
  unfold mapGet mapSet
  split
  case isTrue h => rw [find?_replace_self m k v h]; rfl
  case isFalse h =>
    rw [List.find?_append, find?_of_not_any m k h]
    simp [List.find?]

theorem mapGet_set_other (m : List (String × β)) (k k' : String) (v : β)
    (hne : k' ≠ k) : mapGet (mapSet m k v) k' = mapGet m k' := by
  unfold mapGet mapSet
  split
  · rw [find?_replace_other m k k' v hne]
  · rw [List.find?_append]
    have : List.find? (fun e => e.1 == k') [(k, v)] = none := by
      simp [List.find?, beq_false_of_ne (Ne.symm hne)]
    rw [this]
    cases m.find? (fun e => e.1 == k') <;> rfl

theorem mapGet_delete_self (m : List (String × β)) (k : String) :
    mapGet (mapDelete m k) k = none := by
  unfold mapGet mapDelete
  have : (m.filter fun e => !(e.1 == k)).find? (fun e => e.1 == k) = none := by
    rw [List.find?_eq_none]
    intro e he
    have hf := List.of_mem_filter he
    simp only [Bool.not_eq_true'] at hf
    simp [hf]
  rw [this]; rfl

theorem mapGet_delete_other (m : List (String × β)) (k k' : String)
    (hne : k' ≠ k) : mapGet (mapDelete m k) k' = mapGet m k' := by
  unfold mapGet mapDelete
  induction m with
  | nil => rfl
  | cons e t ih =>
    by_cases he : e.1 = k
    · rw [List.filter_cons_of_neg (by simp [he])]
      rw [List.find?_cons_of_neg _ (by simp [he, Ne.symm hne])]
      exact ih
    · rw [List.filter_cons_of_pos (by simp [he])]
      by_cases he2 : e.1 = k'
      · rw [List.find?_cons_of_pos _ (by simp [he2]),
          List.find?_cons_of_pos _ (by simp [he2])]
      · rw [List.find?_cons_of_neg _ (by simp [he2]),
          List.find?_cons_of_neg _ (by simp [he2])]
        exact ih

theorem mapDelete_of_get_none (m : List (String × β)) (k : String)
    (h : mapGet m k = none) : mapDelete m k = m := by
  unfold mapGet at h
  rw [Option.map_eq_none', List.find?_eq_none] at h
  unfold mapDelete
  rw [List.filter_eq_self]
  intro e he
  simpa using h e he

theorem mapGet_isSome_iff_contains (m : List (String × β)) (k : String) :
    (mapGet m k).isSome = (m.map Prod.fst).contains k := by
  unfold mapGet
  induction m with
  | nil => rfl
  | cons e t ih =>
    by_cases he : e.1 = k
    · rw [List.find?_cons_of_pos _ (by simp [he])]
      simp [he]
    · rw [List.find?_cons_of_neg _ (by simp [he])]
      have hk' : (k == e.1) = false := beq_false_of_ne (Ne.symm he)
      simp only [List.map_cons, List.contains_cons, hk', Bool.false_or]
      exact ih

theorem mapSet_keys_nodup (m : List (String × β)) (k : String) (v : β)
    (h : (m.map Prod.fst).Nodup) : ((mapSet m k v).map Prod.fst).Nodup := by
  unfold mapSet
  split
  · have heq : ((m.map fun e => if e.1 == k then (k, v) else e).map Prod.fst)
        = m.map Prod.fst := by
      rw [List.map_map]
      apply List.map_congr_left
      intro e _
      by_cases he : e.1 = k
      · simp [Function.comp, he]
      · simp [Function.comp, beq_false_of_ne he]
    rw [heq]; exact h
  case isFalse hany =>
    rw [List.map_append]
    apply List.Nodup.append h (by simp)
    intro a ha hb
    simp only [List.map_cons, List.map_nil, List.mem_singleton] at hb
    subst hb
    rcases List.mem_map.mp ha with ⟨e, he, hk⟩
    exact hany (List.any_eq_true.mpr ⟨e, he, by simp [hk]⟩)

theorem mapDelete_keys_nodup (m : List (String × β)) (k : String)
    (h : (m.map Prod.fst).Nodup) : ((mapDelete m k).map Prod.fst).Nodup := by
  unfold mapDelete
  exact h.sublist ((List.filter_sublist m).map Prod.fst)

end MapModel

/-! ## Core data types (src/types.ts) -/

/-- `ResponseConfig`: status code, optional header mapping, optional body. -/
structure ResponseConfig (Val : Type) where
  status : Int
  headers : Option (List (String × String))
  body : Option Val
deriving DecidableEq

/-- `EndpointConfig`: one configured endpoint with its call counter. -/
structure EndpointConfig (Val : Type) where
  method : String
  path : String
  responses : List (ResponseConfig Val)
  callCount : Nat
deriving DecidableEq

/-- `RequestRecord`: one entry of a session's request history. -/
structure RequestRecord where
  method : String
  path : String
  status : Int
  timestamp : Int
  configured : Bool
  responseTime : Int
deriving DecidableEq

/-- `Session`: per-session state; `websocket` holds an abstract channel
handle when a connection reference is recorded. -/
structure Session (Val : Type) where
  id : String
  createdAt : Int
  lastActivityAt : Int
  endpoints : List (String × EndpointConfig Val)
  websocket : Option Nat
  requestHistory : List RequestRecord
deriving DecidableEq

/-! ## EndpointRegistry (src/EndpointRegistry.ts)

The registry state is its `endpoints` map; each method becomes a function
taking and, where it mutates, returning that map. -/

/-- `method.toUpperCase()`. -/
def strUpper (s : String) : String := ⟨s.data.map Char.toUpper⟩

/-- `makeKey`: `` `${method.toUpperCase()}:${path}` ``. -/
def makeKey (method path : String) : String :=
  strUpper method ++ ":" ++ path

section Registry

variable {Val : Type}

/-- The registry's backing `Map<string, EndpointConfig>`. -/
def Registry (Val : Type) : Type := List (String × EndpointConfig Val)

/-- `configure(config)`: store under the derived key with `callCount` reset
to zero. -/
def configure (reg : Registry Val) (config : EndpointConfig Val) :
    Registry Val :=
  mapSet reg (makeKey config.method config.path)
    { config with callCount := 0 }

/-- `get(method, path)`: read-only lookup. -/
def regGet (reg : Registry Val) (method path : String) :
    Option (EndpointConfig Val) :=
  mapGet reg (makeKey method path)

/-- `getNextResponse(method, path)`: return the response selected by the
clamped counter and advance the counter; `null` (here `none`) and no state
change when the endpoint is missing or its sequence is empty. -/
def getNextResponse (reg : Registry Val) (method path : String) :
    Option (ResponseConfig Val) × Registry Val :=
  match h : regGet reg method path with
  | none => (none, reg)
  | some config =>
    if hz : config.responses.length = 0 then (none, reg)
    else
      let response := config.responses.get
        ⟨min config.callCount (config.responses.length - 1), by omega⟩
      (some response,
        mapSet reg (makeKey method path)
          { config with callCount := config.callCount + 1 })

/-- `list()`: all configured entries. -/
def regList (reg : Registry Val) : List (EndpointConfig Val) :=
  reg.map fun e => e.2

/-- `clear(method, path)`: remove one entry, reporting whether it existed. -/
def regClear (reg : Registry Val) (method path : String) :
    Bool × Registry Val :=
  ((mapGet reg (makeKey method path)).isSome,
    mapDelete reg (makeKey method path))

/-- `clearAll()`: remove every entry. -/
def regClearAll (_reg : Registry Val) : Registry Val := []

/-- Repeated `getNextResponse` calls on the same endpoint, collecting each
returned response and threading the registry state. -/
def runCalls : Nat → Registry Val → String → String →
    List (Option (ResponseConfig Val)) × Registry Val
  | 0, reg, _, _ => ([], reg)
  | Nat.succ t, reg, method, path =>
    let r := getNextResponse reg method path
    let rest := runCalls t r.2 method path
    (r.1 :: rest.1, rest.2)

end Registry

section RegistryLemmas

variable {Val : Type}

theorem getNextResponse_of_found (reg : Registry Val) (method path : String)
    (cfg : EndpointConfig Val) (hget : regGet reg method path = some cfg)
    (hne : cfg.responses ≠ []) :
    getNextResponse reg method path
      = (cfg.responses.get? (min cfg.callCount (cfg.responses.length - 1)),
          mapSet reg (makeKey method path)
            { cfg with callCount := cfg.callCount + 1 }) := by
  unfold getNextResponse
  split
  case _ heq => rw [hget] at heq; cases heq
  case _ config heq =>
    rw [hget] at heq
    injection heq with heq
    subst heq
    rw [dif_neg (by simpa [List.length_eq_zero] using hne)]
    have hlt : min cfg.callCount (cfg.responses.length - 1)
        < cfg.responses.length := by
      have : cfg.responses.length ≠ 0 := by
        simpa [List.length_eq_zero] using hne
      omega
    rw [List.get?_eq_get hlt]

theorem getNextResponse_absent (reg : Registry Val) (method path : String)
    (h : ((regGet reg method path).all fun c => c.responses.isEmpty) = true) :
    getNextResponse reg method path = (none, reg) := by
  unfold getNextResponse
  split
  case _ => rfl
  case _ config heq =>
    rw [heq] at h
    simp only [Option.all_some, List.isEmpty_iff] at h
    rw [dif_pos (by simp [h])]

theorem runCalls_of_found (t : Nat) (reg : Registry Val)
    (method path : String) (cfg : EndpointConfig Val)
    (hget : regGet reg method path = some cfg)
    (hne : cfg.responses ≠ []) :
    (runCalls t reg method path).1
        = (List.range t).map (fun i =>
            cfg.responses.get? (min (cfg.callCount + i)
              (cfg.responses.length - 1)))
      ∧ regGet (runCalls t reg method path).2 method path
        = some { cfg with callCount := cfg.callCount + t } := by
  induction t generalizing reg cfg with
  | zero =>
    constructor
    · rfl
    · simpa using hget
  | succ t ih =>
    have hstep := getNextResponse_of_found reg method path cfg hget hne
    have hget' : regGet (mapSet reg (makeKey method path)
          { cfg with callCount := cfg.callCount + 1 }) method path
        = some { cfg with callCount := cfg.callCount + 1 } :=
      mapGet_set_self reg (makeKey method path) _
    obtain ⟨ih1, ih2⟩ := ih (mapSet reg (makeKey method path)
      { cfg with callCount := cfg.callCount + 1 })
      { cfg with callCount := cfg.callCount + 1 } hget' (by simpa using hne)
    unfold runCalls
    rw [hstep]
    refine ⟨?_, ?_⟩
    · simp only [ih1]
      rw [List.range_succ_eq_map, List.map_cons, List.map_map]
      congr 1
      apply List.map_congr_left
      intro i _
      simp only [Function.comp]
      congr 2
      omega
    · simp only [ih2]
      simp only [Option.some_inj]
      congr 1
      omega

theorem seq_clamp_list (l : List (ResponseConfig Val)) (k : Nat)
    (hne : l ≠ []) :
    (List.range (l.length + k)).map (fun i => l.get? (min i (l.length - 1)))
      = l.map some ++ List.replicate k l.getLast? := by
  have hpos : 0 < l.length := List.length_pos.mpr hne
  rw [List.range_add, List.map_append]
  congr 1
  · apply List.ext
    intro n
    by_cases hn : n < l.length
    · rw [List.get?_map, List.get?_map, List.get?_range hn]
      have hmin : min n (l.length - 1) = n := by omega
      simp only [Option.map_some', hmin]
      cases hx : l.get? n with
      | none => exact absurd (List.get?_eq_none.mp hx) (by omega)
      | some x => rfl
    · rw [List.get?_map, List.get?_map,
        List.get?_eq_none.mpr (by simpa using hn),
        List.get?_eq_none.mpr (by simpa using hn)]
      rfl
  · rw [List.map_map]
    have hc : ((fun i => l.get? (min i (l.length - 1))) ∘ (l.length + ·))
        = fun _ => l.getLast? := by
      funext j
      simp only [Function.comp]
      have hmin : min (l.length + j) (l.length - 1) = l.length - 1 := by omega
      rw [hmin, List.getLast?_eq_get?]
    rw [hc, List.map_const', List.length_range]

end RegistryLemmas

/-! ## Claims about the EndpointRegistry -/

/-- C1: with an endpoint whose (non-empty) response list has a fresh counter,
each `getNextResponse` call returns the response at index
`min(callCount, n-1)` and increments the counter; a run of `n + k` calls
yields the `n` responses in order followed by `k` repetitions of the last. -/
theorem c1_sequence_advance {Val : Type} (reg : Registry Val)
    (method path : String) (cfg : EndpointConfig Val) (k : Nat)
    (hget : regGet reg method path = some cfg)
    (hne : cfg.responses ≠ []) (hc0 : cfg.callCount = 0) :
    (getNextResponse reg method path).1
        = cfg.responses.get? (min cfg.callCount (cfg.responses.length - 1))
      ∧ regGet (getNextResponse reg method path).2 method path
        = some { cfg with callCount := cfg.callCount + 1 }
      ∧ (runCalls (cfg.responses.length + k) reg method path).1
        = cfg.responses.map some ++ List.replicate k cfg.responses.getLast? := by
  have hstep := getNextResponse_of_found reg method path cfg hget hne
  refine ⟨by rw [hstep], ?_, ?_⟩
  · rw [hstep]
    exact mapGet_set_self reg (makeKey method path) _
  · obtain ⟨h1, _⟩ :=
      runCalls_of_found (cfg.responses.length + k) reg method path cfg hget hne
    rw [h1, hc0]
    simp only [Nat.zero_add]
    exact seq_clamp_list cfg.responses k hne

/-- Witness for C1: a two-response endpoint called `2 + 1` times returns
response 0, then response 1, then response 1 again. -/
theorem c1_sequence_advance_witness :
    (regGet
        ([(makeKey "get" "/api/test",
          ⟨"get", "/api/test", [⟨500, none, none⟩, ⟨200, none, none⟩], 0⟩)]
          : Registry Unit)
        "get" "/api/test"
      = some ⟨"get", "/api/test", [⟨500, none, none⟩, ⟨200, none, none⟩], 0⟩)
    ∧ ((⟨"get", "/api/test", [⟨500, none, none⟩, ⟨200, none, none⟩], 0⟩
          : EndpointConfig Unit).responses ≠ [])
    ∧ (runCalls (2 + 1)
        ([(makeKey "get" "/api/test",
          ⟨"get", "/api/test", [⟨500, none, none⟩, ⟨200, none, none⟩], 0⟩)]
          : Registry Unit)
        "get" "/api/test").1
      = [some ⟨500, none, none⟩, some ⟨200, none, none⟩,
          some ⟨200, none, none⟩] := by
  refine ⟨by decide, by decide, ?_⟩
  have h := c1_sequence_advance
    ([(makeKey "get" "/api/test",
      ⟨"get", "/api/test", [⟨500, none, none⟩, ⟨200, none, none⟩], 0⟩)]
      : Registry Unit)
    "get" "/api/test"
    ⟨"get", "/api/test", [⟨500, none, none⟩, ⟨200, none, none⟩], 0⟩
    1 (by decide) (by decide) (by decide)
  exact h.2.2.trans (by decide)

/-- C3: `configure` replaces the entry for the key with the new sequence and
a zero counter, so the next `getNextResponse` for that method/path returns
index 0 of the new sequence. -/
theorem c3_reconfigure_resets {Val : Type} (reg : Registry Val)
    (config : EndpointConfig Val) (hne : config.responses ≠ []) :
    regGet (configure reg config) config.method config.path
        = some { config with callCount := 0 }
      ∧ (getNextResponse (configure reg config) config.method config.path).1
        = config.responses.get? 0 := by
  have hget : regGet (configure reg config) config.method config.path
      = some { config with callCount := 0 } :=
    mapGet_set_self reg (makeKey config.method config.path) _
  refine ⟨hget, ?_⟩
  have hstep := getNextResponse_of_found _ config.method config.path
    { config with callCount := 0 } hget (by simpa using hne)
  rw [hstep]
  simp

/-- Witness for C3: reconfiguring an endpoint that has already been called
twice makes the next call serve index 0 of the new sequence. -/
theorem c3_reconfigure_resets_witness :
    ((⟨"GET", "/api/test", [⟨201, none, none⟩], 7⟩
        : EndpointConfig Unit).responses ≠ [])
    ∧ (regGet (configure
          ([(makeKey "GET" "/api/test",
            ⟨"GET", "/api/test", [⟨500, none, none⟩, ⟨200, none, none⟩], 2⟩)]
            : Registry Unit)
          ⟨"GET", "/api/test", [⟨201, none, none⟩], 7⟩)
          "GET" "/api/test"
        = some ⟨"GET", "/api/test", [⟨201, none, none⟩], 0⟩
      ∧ (getNextResponse (configure
          ([(makeKey "GET" "/api/test",
            ⟨"GET", "/api/test", [⟨500, none, none⟩, ⟨200, none, none⟩], 2⟩)]
            : Registry Unit)
          ⟨"GET", "/api/test", [⟨201, none, none⟩], 7⟩)
          "GET" "/api/test").1
        = [(⟨201, none, none⟩ : ResponseConfig Unit)].get? 0) :=
  ⟨by decide,
    c3_reconfigure_resets
      [(makeKey "GET" "/api/test",
        ⟨"GET", "/api/test", [⟨500, none, none⟩, ⟨200, none, none⟩], 2⟩)]
      ⟨"GET", "/api/test", [⟨201, none, none⟩], 7⟩ (by decide)⟩

/-- C10: when no configuration exists for the key, or the configured
sequence is empty, `getNextResponse` returns `none` and the registry state
is completely unchanged. -/
theorem c10_absent_frame {Val : Type} (reg : Registry Val)
    (method path : String)
    (h : ((regGet reg method path).all fun c => c.responses.isEmpty) = true) :
    getNextResponse reg method path = (none, reg) :=
  getNextResponse_absent reg method path h

/-- Witness for C10: an unconfigured key on a non-empty registry yields
`none` and leaves the registry as it was. -/
theorem c10_absent_frame_witness :
    (((regGet
        ([(makeKey "GET" "/a", ⟨"GET", "/a", [⟨200, none, none⟩], 0⟩)]
          : Registry Unit)
        "GET" "/b").all fun c => c.responses.isEmpty) = true)
    ∧ getNextResponse
        ([(makeKey "GET" "/a", ⟨"GET", "/a", [⟨200, none, none⟩], 0⟩)]
          : Registry Unit)
        "GET" "/b"
      = (none,
          [(makeKey "GET" "/a", ⟨"GET", "/a", [⟨200, none, none⟩], 0⟩)]) :=
  ⟨by decide,
    c10_absent_frame
      [(makeKey "GET" "/a", ⟨"GET", "/a", [⟨200, none, none⟩], 0⟩)]
      "GET" "/b" (by decide)⟩

/-! ## Claims about key derivation (C8) -/

theorem char_toUpper_ne_colon (c : Char) (h : c ≠ ':') : c.toUpper ≠ ':' := by
  intro hc
  rw [Char.toUpper] at hc
  by_cases hl : c.toNat ≥ 97 ∧ c.toNat ≤ 122
  · rw [if_pos hl] at hc
    obtain ⟨hza, hzb⟩ := hl
    set m := c.toNat with hm
    interval_cases m <;> exact absurd hc (by decide)
  · rw [if_neg hl] at hc
    exact h hc

theorem append_colon_inj (a1 a2 r1 r2 : List Char)
    (h1 : (':' : Char) ∉ a1) (h2 : (':' : Char) ∉ a2)
    (h : a1 ++ ':' :: r1 = a2 ++ ':' :: r2) : a1 = a2 ∧ r1 = r2 := by
  induction a1 generalizing a2 with
  | nil =>
    cases a2 with
    | nil =>
      simp only [List.nil_append, List.cons.injEq, true_and] at h
      exact ⟨rfl, h⟩
    | cons x xs =>
      simp only [List.nil_append, List.cons_append, List.cons.injEq] at h
      exact absurd (List.mem_cons_self x xs) (h.1 ▸ h2)
  | cons x xs ih =>
    cases a2 with
    | nil =>
      simp only [List.cons_append, List.nil_append, List.cons.injEq] at h
      exact absurd (List.mem_cons_self x xs) (h.1.symm ▸ h1)
    | cons y ys =>
      simp only [List.cons_append, List.cons.injEq] at h
      obtain ⟨hxy, ht⟩ := h
      obtain ⟨ha, hr⟩ := ih ys (fun hx => h1 (List.mem_cons_of_mem x hx))
        (fun hx => h2 (List.mem_cons_of_mem y hx)) ht
      exact ⟨by rw [hxy, ha], hr⟩

theorem strUpper_data (s : String) : (strUpper s).data = s.data.map Char.toUpper :=
  rfl

theorem colon_not_mem_strUpper (s : String) (h : (':' : Char) ∉ s.data) :
    (':' : Char) ∉ (strUpper s).data := by
  rw [strUpper_data]
  intro hx
  rcases List.mem_map.mp hx with ⟨c, hc, hup⟩
  exact char_toUpper_ne_colon c (fun he => h (he ▸ hc)) hup

/-- C8 (amended): the key is `UPPER(method) ++ ":" ++ path`; for methods that
contain no `':'` character (every real HTTP method), two configurations share
an entry key exactly when their methods agree up to case and their paths are
identical strings. -/
theorem c8_key_exact_match (m1 p1 m2 p2 : String)
    (h1 : (':' : Char) ∉ m1.data) (h2 : (':' : Char) ∉ m2.data) :
    makeKey m1 p1 = makeKey m2 p2 ↔ strUpper m1 = strUpper m2 ∧ p1 = p2 := by
  constructor
  · intro h
    have hd := congrArg String.data h
    unfold makeKey at hd
    rw [String.data_append, String.data_append] at hd
    rw [String.data_append, String.data_append] at hd
    have hcol : (":" : String).data = [':'] := rfl
    rw [hcol] at hd
    simp only [List.append_assoc, List.singleton_append] at hd
    obtain ⟨ha, hr⟩ := append_colon_inj (strUpper m1).data (strUpper m2).data
      p1.data p2.data (colon_not_mem_strUpper m1 h1)
      (colon_not_mem_strUpper m2 h2) hd
    exact ⟨congrArg String.mk ha, congrArg String.mk hr⟩
  · intro ⟨hm, hp⟩
    unfold makeKey
    rw [hm, hp]

/-- Witness for C8 (amended): `GET /api/users` and `POST /api/users` are
colon-free methods, and their keys differ exactly because the methods differ. -/
theorem c8_key_exact_match_witness :
    ((':' : Char) ∉ ("GET" : String).data)
    ∧ ((':' : Char) ∉ ("POST" : String).data)
    ∧ (makeKey "GET" "/api/users" = makeKey "POST" "/api/users"
        ↔ strUpper "GET" = strUpper "POST" ∧ ("/api/users" : String) = "/api/users") :=
  ⟨by decide, by decide,
    c8_key_exact_match "GET" "/api/users" "POST" "/api/users"
      (by decide) (by decide)⟩

/-- Counterexample to C8 as stated: a method containing a `':'` lets two
configurations with different methods (up to case) and different paths share
one entry: `("A:B", "/c")` and `("A", "B:/c")` derive the same key, so the
second `configure` replaces the first entry. -/
theorem c8_counterexample :
    makeKey "A:B" "/c" = makeKey "A" "B:/c"
    ∧ strUpper "A:B" ≠ strUpper "A"
    ∧ ("/c" : String) ≠ "B:/c"
    ∧ regGet (configure (configure ([] : Registry Unit)
          ⟨"A:B", "/c", [⟨200, none, none⟩], 0⟩)
          ⟨"A", "B:/c", [⟨201, none, none⟩], 0⟩)
        "A:B" "/c"
      = some ⟨"A", "B:/c", [⟨201, none, none⟩], 0⟩ := by
  refine ⟨by decide, by decide, by decide, by decide⟩

/-! ## SessionManager (src/SessionManager.ts) -/

/-- `SessionMetadata`: the listing projection of a session. -/
structure SessionMetadata where
  id : String
  createdAt : Int
  lastActivityAt : Int
  connected : Bool
deriving DecidableEq

section SessionStore

variable {Val : Type}

/-- The manager's backing `Map<string, Session>`. -/
def Store (Val : Type) : Type := List (String × Session Val)

/-- `getOrCreate(sessionId)`: return the existing session or create a fresh
one (empty endpoints, no websocket, empty history, both timestamps `now`). -/
def getOrCreate (st : Store Val) (sessionId : String) (now : Int) :
    Session Val × Store Val :=
  match mapGet st sessionId with
  | some session => (session, st)
  | none =>
    let session : Session Val := ⟨sessionId, now, now, [], none, []⟩
    (session, mapSet st sessionId session)

/-- `updateActivity(sessionId)`: refresh `lastActivityAt` when the session
exists, else do nothing. -/
def updateActivity (st : Store Val) (sessionId : String) (now : Int) :
    Store Val :=
  match mapGet st sessionId with
  | some session => mapSet st sessionId { session with lastActivityAt := now }
  | none => st

/-- `deleteSession(sessionId)`: close the session's websocket if one is
recorded (the closed channel handle is returned as the third component),
remove the session, and report whether it existed. -/
def deleteSession (st : Store Val) (sessionId : String) :
    Bool × Store Val × Option Nat :=
  match mapGet st sessionId with
  | none => (false, st, none)
  | some session => (true, mapDelete st sessionId, session.websocket)

/-- `listSessions()`: metadata of every session in insertion order. -/
def listSessions (st : Store Val) : List SessionMetadata :=
  st.map fun e =>
    ⟨e.2.id, e.2.createdAt, e.2.lastActivityAt, e.2.websocket.isSome⟩

/-- `cleanupExpired()`: collect the ids whose age exceeds the ttl, then
delete each of them. -/
def cleanupExpired (st : Store Val) (now ttl : Int) : Store Val :=
  let expired :=
    (st.filter fun e => ttl < now - e.2.lastActivityAt).map Prod.fst
  expired.foldl (fun acc sessionId => (deleteSession acc sessionId).2.1) st

end SessionStore

/-! ## WebSocketHub (src/WebSocketHub.ts)

Channels are abstract handles (`Nat`); a send operation reports success and
the writes it performed as `(channel, message)` pairs, the message being the
envelope value that `JSON.stringify` would serialize. -/

/-- The `'action' | 'data'` discriminant of `WebSocketMessage`. -/
inductive MsgType
  | action
  | data
deriving DecidableEq

/-- `WebSocketMessage`: the wire envelope; absent fields are `none`. -/
structure WebSocketMessage (Val : Type) where
  type : MsgType
  action : Option String
  params : Option Val
  data : Option Val
deriving DecidableEq

/-- The hub's backing `Map<string, WebSocket>`. -/
def Hub : Type := List (String × Nat)

/-- `register(sessionId, ws)`. -/
def register (hub : Hub) (sessionId : String) (ws : Nat) : Hub :=
  mapSet hub sessionId ws

/-- `unregister(sessionId)`. -/
def unregister (hub : Hub) (sessionId : String) : Hub :=
  mapDelete hub sessionId

/-- `get(sessionId)`. -/
def hubGet (hub : Hub) (sessionId : String) : Option Nat :=
  mapGet hub sessionId

/-- `isConnected(sessionId)`: `connections.has(sessionId)`. -/
def isConnected (hub : Hub) (sessionId : String) : Bool :=
  (hub.map Prod.fst).contains sessionId

section HubSend

variable {Val : Type}

/-- `sendAction(sessionId, action, params?)`: write the
`{type:"action", action, params}` envelope when a connection exists. -/
def sendAction (hub : Hub) (sessionId : String) (action : String)
    (params : Option Val) : Bool × List (Nat × WebSocketMessage Val) :=
  match mapGet hub sessionId with
  | none => (false, [])
  | some ws => (true, [(ws, ⟨MsgType.action, some action, params, none⟩)])

/-- `sendData(sessionId, data)`: write the `{type:"data", data}` envelope
when a connection exists. -/
def sendData (hub : Hub) (sessionId : String) (data : Val) :
    Bool × List (Nat × WebSocketMessage Val) :=
  match mapGet hub sessionId with
  | none => (false, [])
  | some ws => (true, [(ws, ⟨MsgType.data, none, none, some data⟩)])

end HubSend

/-- One hub mutation: a handshake installing a channel, or a close removing
the entry. -/
inductive HubOp
  | register (sessionId : String) (ws : Nat)
  | unregister (sessionId : String)

/-- Apply one hub operation. -/
def applyOp (hub : Hub) : HubOp → Hub
  | .register sessionId ws => register hub sessionId ws
  | .unregister sessionId => unregister hub sessionId

/-- Apply a sequence of hub operations in order. -/
def applyOps (ops : List HubOp) (hub : Hub) : Hub :=
  ops.foldl applyOp hub

/-! ## Data-plane request handling (src/server.ts, `/session/:sessionId/*`)

The handler takes the store, the request coordinates, the arrival time `t0`
and the time `t1` at which the response time is measured; it returns the
updated store, the response status, and whether a configured endpoint served
the request. -/

section DataPlane

variable {Val : Type}

/-- The `!config || config.responses.length === 0` branch: append a 404
record (no trimming) and return 404. -/
def recordUnconfigured (st1 : Store Val) (sessionId : String)
    (session : Session Val) (method path : String) (t1 responseTime : Int) :
    Store Val × Int × Bool :=
  let record : RequestRecord := ⟨method, path, 404, t1, false, responseTime⟩
  let session2 :=
    { session with requestHistory := session.requestHistory ++ [record] }
  (mapSet st1 sessionId session2, 404, false)

/-- The full data-plane handler. -/
def handleDataRequest (st : Store Val) (sessionId method path : String)
    (t0 t1 : Int) : Store Val × Int × Bool :=
  let pr := getOrCreate st sessionId t0
  let st1 := pr.2
  let session := { pr.1 with lastActivityAt := t0 }
  let key := makeKey method path
  let responseTime := t1 - t0
  match mapGet session.endpoints key with
  | none => recordUnconfigured st1 sessionId session method path t1 responseTime
  | some config =>
    if hz : config.responses.length = 0 then
      recordUnconfigured st1 sessionId session method path t1 responseTime
    else
      let response := config.responses.get
        ⟨min config.callCount (config.responses.length - 1), by omega⟩
      let config2 := { config with callCount := config.callCount + 1 }
      let endpoints2 := mapSet session.endpoints key config2
      let record : RequestRecord :=
        ⟨method, path, response.status, t1, true, responseTime⟩
      let hist1 := session.requestHistory ++ [record]
      let hist2 :=
        if hist1.length > 1000 then hist1.drop (hist1.length - 1000) else hist1
      let session2 :=
        { session with endpoints := endpoints2, requestHistory := hist2 }
      (mapSet st1 sessionId session2, response.status, true)

end DataPlane

/-! ## Claims about the Session Store and Connection Hub -/

theorem entry_eq_of_nodup_keys {β : Type} {st : List (String × β)}
    {e e' : String × β} (h : (st.map Prod.fst).Nodup) (he : e ∈ st)
    (he' : e' ∈ st) (hk : e.1 = e'.1) : e = e' := by
  induction st with
  | nil => cases he
  | cons x t ih =>
    rw [List.map_cons, List.nodup_cons] at h
    rcases List.mem_cons.mp he with rfl | hem
    · rcases List.mem_cons.mp he' with rfl | hem'
      · rfl
      · exact absurd (List.mem_map.mpr ⟨e', hem', hk.symm⟩) h.1
    · rcases List.mem_cons.mp he' with rfl | hem'
      · exact absurd (List.mem_map.mpr ⟨e, hem, hk⟩) h.1
      · exact ih h.2 hem hem'

/-- C7: `getOrCreate` is idempotent — a second call with the same id returns
the very session produced by the first call and leaves the store exactly as
the first call left it (no field of the session is reset). -/
theorem c7_getOrCreate_idempotent {Val : Type} (st : Store Val)
    (sessionId : String) (t1 t2 : Int) :
    getOrCreate ((getOrCreate st sessionId t1).2) sessionId t2
      = ((getOrCreate st sessionId t1).1, (getOrCreate st sessionId t1).2) := by
  cases h : mapGet st sessionId with
  | some s =>
    simp only [getOrCreate, h]
  | none =>
    simp only [getOrCreate, h, mapGet_set_self]

/-- C6: `deleteSession` returns whether the session existed, removes exactly
the entry for that id (so it is absent afterwards, and all other sessions
are untouched), and reports the session's recorded live connection as the
channel it closed. -/
theorem c6_delete_session {Val : Type} (st : Store Val) (sessionId : String) :
    (deleteSession st sessionId).1 = (st.map Prod.fst).contains sessionId
    ∧ mapGet (deleteSession st sessionId).2.1 sessionId = none
    ∧ (deleteSession st sessionId).2.1
      = st.filter (fun e => !(e.1 == sessionId))
    ∧ (deleteSession st sessionId).2.2
      = (mapGet st sessionId).bind Session.websocket := by
  cases h : mapGet st sessionId with
  | none =>
    simp only [deleteSession, h]
    refine ⟨?_, by simp [h], ?_, rfl⟩
    · rw [← mapGet_isSome_iff_contains, h]; rfl
    · exact (mapDelete_of_get_none st sessionId h).symm
  | some s =>
    simp only [deleteSession, h]
    refine ⟨?_, mapGet_delete_self st sessionId, rfl, rfl⟩
    rw [← mapGet_isSome_iff_contains, h]; rfl

/-- C4: `sendAction`/`sendData` succeed exactly when the hub has a connection
for the id (failure is the `false` result, no exception); with no
registration the call performs no write, and after `register` the same call
succeeds and performs exactly one write, carrying the
`{type:"action", action, params}` resp. `{type:"data", data}` envelope. -/
theorem c4_send_requires_connection {Val : Type} (hub : Hub)
    (sessionId : String) (ws : Nat) (action : String) (params : Option Val)
    (data : Val) :
    (sendAction hub sessionId action params).1 = isConnected hub sessionId
    ∧ (sendData hub sessionId data).1 = isConnected hub sessionId
    ∧ sendAction (unregister hub sessionId) sessionId action params
      = (false, ([] : List (Nat × WebSocketMessage Val)))
    ∧ sendData (unregister hub sessionId) sessionId data = (false, [])
    ∧ sendAction (register hub sessionId ws) sessionId action params
      = (true, [(ws, ⟨MsgType.action, some action, params, none⟩)])
    ∧ sendData (register hub sessionId ws) sessionId data
      = (true, [(ws, ⟨MsgType.data, none, none, some data⟩)]) := by
  have hcon : isConnected hub sessionId = (mapGet hub sessionId).isSome := by
    rw [isConnected, mapGet_isSome_iff_contains]
  refine ⟨?_, ?_, ?_, ?_, ?_, ?_⟩
  · cases h : mapGet hub sessionId <;> simp [sendAction, h, hcon]
  · cases h : mapGet hub sessionId <;> simp [sendData, h, hcon]
  · simp only [sendAction, unregister, mapGet_delete_self]
  · simp only [sendData, unregister, mapGet_delete_self]
  · simp only [sendAction, register, mapGet_set_self]
  · simp only [sendData, register, mapGet_set_self]

theorem applyOps_keys_nodup (ops : List HubOp) (hub : Hub)
    (h : (hub.map Prod.fst).Nodup) :
    ((applyOps ops hub).map Prod.fst).Nodup := by
  induction ops generalizing hub with
  | nil => exact h
  | cons op t ih =>
    show ((applyOps t (applyOp hub op)).map Prod.fst).Nodup
    apply ih
    cases op with
    | register sessionId ws => exact mapSet_keys_nodup hub sessionId ws h
    | unregister sessionId => exact mapDelete_keys_nodup hub sessionId h

/-- C9: after any sequence of `register`/`unregister` operations the hub
holds at most one channel per session id; `register` installs the channel
for its id (replacing any prior entry) and leaves every other id untouched;
`unregister` removes the entry unconditionally and leaves every other id
untouched. -/
theorem c9_at_most_one_channel (ops : List HubOp) (hub : Hub)
    (sessionId other : String) (ws : Nat) (hne : other ≠ sessionId) :
    ((applyOps ops []).map Prod.fst).Nodup
    ∧ ((applyOps ops []).map Prod.fst).count sessionId ≤ 1
    ∧ mapGet (register hub sessionId ws) sessionId = some ws
    ∧ mapGet (register hub sessionId ws) other = mapGet hub other
    ∧ mapGet (unregister hub sessionId) sessionId = none
    ∧ mapGet (unregister hub sessionId) other = mapGet hub other := by
  have hnodup := applyOps_keys_nodup ops [] (by simp)
  exact ⟨hnodup, List.nodup_iff_count_le_one.mp hnodup sessionId,
    mapGet_set_self hub sessionId ws,
    mapGet_set_other hub sessionId other ws hne,
    mapGet_delete_self hub sessionId,
    mapGet_delete_other hub sessionId other hne⟩

/-- Witness for C9: two handshakes for `"a"` then a close of `"c"`, starting
from an empty hub; frame checked against the distinct id `"b"`. -/
theorem c9_at_most_one_channel_witness :
    (("b" : String) ≠ "a")
    ∧ (((applyOps [HubOp.register "a" 1, HubOp.register "a" 2,
          HubOp.unregister "c"] []).map Prod.fst).Nodup
      ∧ ((applyOps [HubOp.register "a" 1, HubOp.register "a" 2,
          HubOp.unregister "c"] []).map Prod.fst).count "a" ≤ 1
      ∧ mapGet (register [("a", 5), ("b", 7)] "a" 9) "a" = some 9
      ∧ mapGet (register [("a", 5), ("b", 7)] "a" 9) "b"
        = mapGet [("a", 5), ("b", 7)] "b"
      ∧ mapGet (unregister [("a", 5), ("b", 7)] "a") "a" = none
      ∧ mapGet (unregister [("a", 5), ("b", 7)] "a") "b"
        = mapGet [("a", 5), ("b", 7)] "b") :=
  ⟨by decide,
    c9_at_most_one_channel
      [HubOp.register "a" 1, HubOp.register "a" 2, HubOp.unregister "c"]
      [("a", 5), ("b", 7)] "a" "b" 9 (by decide)⟩

theorem deleteSession_store {Val : Type} (st : Store Val) (sessionId : String) :
    (deleteSession st sessionId).2.1 = mapDelete st sessionId := by
  cases h : mapGet st sessionId with
  | none =>
    simp only [deleteSession, h]
    exact (mapDelete_of_get_none st sessionId h).symm
  | some s => simp only [deleteSession, h]

theorem foldl_delete_eq {Val : Type} (ids : List String) (st : Store Val) :
    ids.foldl (fun acc sessionId => (deleteSession acc sessionId).2.1) st
      = st.filter fun e => !(ids.contains e.1) := by
  induction ids generalizing st with
  | nil => simp
  | cons a t ih =>
    rw [List.foldl_cons, deleteSession_store, ih]
    unfold mapDelete
    rw [List.filter_filter]
    apply List.filter_congr
    intro e _
    by_cases hea : e.1 = a
    · simp [List.contains_cons, Bool.and_comm, hea]
    · simp [List.contains_cons, Bool.and_comm, hea, beq_false_of_ne hea]

/-- C5: the expiry sweep removes exactly the sessions whose
`now - lastActivityAt` exceeds the ttl and keeps every other session
unchanged, in order. -/
theorem c5_sweep_expired {Val : Type} (st : Store Val) (now ttl : Int)
    (h : (st.map Prod.fst).Nodup) :
    cleanupExpired st now ttl
      = st.filter fun e => now - e.2.lastActivityAt ≤ ttl := by
  unfold cleanupExpired
  rw [foldl_delete_eq]
  apply List.filter_congr
  intro e he
  by_cases hexp : ttl < now - e.2.lastActivityAt
  · have hmem : e.1 ∈ (st.filter fun x =>
        ttl < now - x.2.lastActivityAt).map Prod.fst :=
      List.mem_map.mpr ⟨e, List.mem_filter.mpr ⟨he, by simpa using hexp⟩, rfl⟩
    have hct : ((st.filter fun x =>
        ttl < now - x.2.lastActivityAt).map Prod.fst).contains e.1 = true :=
      List.elem_iff.mpr hmem
    rw [hct]
    have hle : ¬ (now - e.2.lastActivityAt ≤ ttl) := by omega
    simp [hle]
  · have hnot : e.1 ∉ (st.filter fun x =>
        ttl < now - x.2.lastActivityAt).map Prod.fst := by
      intro hmem
      rcases List.mem_map.mp hmem with ⟨e', he', hk⟩
      have he'in := (List.mem_filter.mp he').1
      have hexp' := (List.mem_filter.mp he').2
      have := entry_eq_of_nodup_keys h he'in he hk
      subst this
      exact hexp (by simpa using hexp')
    have hc : ((st.filter fun x =>
        ttl < now - x.2.lastActivityAt).map Prod.fst).contains e.1 = false :=
      Bool.eq_false_iff.mpr fun htrue => hnot (List.elem_iff.mp htrue)
    rw [hc]
    have hle : now - e.2.lastActivityAt ≤ ttl := by omega
    simp [hle]

/-- A concrete store: session `"a"` last active at time 0, session `"b"`
last active at time 100. -/
def sweepWitnessStore : Store Unit :=
  [("a", ⟨"a", 0, 0, [], none, []⟩), ("b", ⟨"b", 90, 100, [], none, []⟩)]

/-- Witness for C5: sweeping `sweepWitnessStore` at `now = 150`,
`ttl = 100` removes exactly the expired session `"a"` (age 150) and keeps
the fresh session `"b"` (age 50) unchanged. -/
theorem c5_sweep_expired_witness :
    ((sweepWitnessStore.map Prod.fst).Nodup)
    ∧ cleanupExpired sweepWitnessStore 150 100
      = sweepWitnessStore.filter fun e => 150 - e.2.lastActivityAt ≤ 100 :=
  ⟨by decide, c5_sweep_expired sweepWitnessStore 150 100 (by decide)⟩

/-! ## Claims about the data-plane handler (C2) -/

/-- C2 (amended): every data-plane request appends a record of itself
(method, path, resulting status, timestamp, configured flag, handling time)
to the owning session's history, regardless of outcome; but the trim to the
last 1000 records runs only on the configured branch, so a configured
request leaves at most 1000 records while an unconfigured (404) request
always grows the history by exactly one, without bound. -/
theorem c2_request_recorded {Val : Type} (st : Store Val)
    (sessionId method path : String) (t0 t1 : Int) :
    ((mapGet (handleDataRequest st sessionId method path t0 t1).1
        sessionId).map fun s => s.requestHistory.getLast?)
      = some (some ⟨method, path,
          (handleDataRequest st sessionId method path t0 t1).2.1, t1,
          (handleDataRequest st sessionId method path t0 t1).2.2, t1 - t0⟩)
    ∧ ((mapGet (handleDataRequest st sessionId method path t0 t1).1
        sessionId).map fun s => s.requestHistory.length)
      = some (if (handleDataRequest st sessionId method path t0 t1).2.2
          then min ((getOrCreate st sessionId t0).1.requestHistory.length + 1)
            1000
          else (getOrCreate st sessionId t0).1.requestHistory.length + 1) := by
  simp only [handleDataRequest, recordUnconfigured]
  split
  · rw [mapGet_set_self]
    simp [List.getLast?_concat]
  · split
    · rw [mapGet_set_self]
      simp [List.getLast?_concat]
    · rw [mapGet_set_self]
      simp only [Option.map_some']
      constructor
      · split
        case isTrue hgt =>
          rw [List.drop_append_of_le_length (by
            simp only [List.length_append, List.length_singleton] at hgt ⊢
            omega)]
          simp [List.getLast?_concat]
        case isFalse => simp [List.getLast?_concat]
      · split
        case isTrue hgt =>
          simp only [List.length_append, List.length_singleton] at hgt
          simp only [Option.some_inj, List.length_drop, List.length_append,
            List.length_singleton]
          simp only [ite_true]
          omega
        case isFalse hgt =>
          simp only [List.length_append, List.length_singleton] at hgt
          simp only [Option.some_inj, List.length_append,
            List.length_singleton]
          simp only [ite_true]
          omega

/-- A session whose request history already holds 1000 records (as produced
by 1000 earlier unconfigured data-plane requests) and no endpoints. -/
def fullHistorySession : Session Unit :=
  ⟨"s", 0, 0, [], none, List.replicate 1000 ⟨"GET", "/x", 404, 0, false, 0⟩⟩

/-- Counterexample to C2 as stated: an unconfigured (404) data-plane request
against a session already holding 1000 records leaves 1001 records — the
eviction does not run on the not-found branch, so the history is not capped
at 1000 after every request. -/
theorem c2_counterexample :
    ((mapGet (handleDataRequest [("s", fullHistorySession)]
        "s" "GET" "/x" 0 0).1 "s").map
      fun s => decide (s.requestHistory.length ≤ 1000)) = some false := by
  have h1 : mapGet [("s", fullHistorySession)] "s"
      = some fullHistorySession := rfl
  have h2 : mapGet fullHistorySession.endpoints (makeKey "GET" "/x")
      = none := rfl
  simp only [handleDataRequest, recordUnconfigured, getOrCreate, h1, h2,
    mapGet_set_self, Option.map_some']
  simp only [fullHistorySession, Option.some_inj, List.length_append,
    List.length_replicate, List.length_singleton]
  rfl

end SpyNet
